import Mathlib

/-!
Verification of the DEFSPACE news-scraper pipeline.

The Python sources `simple_scraper.py` (class `RobustNewsScraper`) and `Main.py`
(class `SimpleNewsScraper`) are embedded shallowly: Python strings become
`List Char`, the relevant `re` substitutions and string methods become
executable Lean functions, and the effectful fetch logic is modelled by a
datatype of per-attempt outcomes.  Definitions named after the Python methods
(`is_relevant_article`, `clean_text`, `safe_request`, `parse_date`,
`remove_duplicates`, `extract_full_article`) are direct translations of the
corresponding method bodies; ASCII is assumed for the character-class
abbreviations `\w` and `\s` and for `str.lower`/`str.strip`, which matches the
English keyword vocabularies the program works with.
-/

/-- Python `str.lower()` (ASCII model): lower-case every character. -/
def lower (s : List Char) : List Char := s.map Char.toLower

/-- The whitespace class stripped by Python `str.strip()` and matched by the
regex class `\s` (ASCII model): space, tab, newline, carriage return,
vertical tab, form feed. -/
def isPyWS (c : Char) : Bool :=
  c == ' ' || c == '\t' || c == '\n' || c == '\r' || c == '\x0b' || c == '\x0c'

/-- Python `str.strip()`: drop leading and trailing whitespace. -/
def strip (s : List Char) : List Char :=
  ((s.dropWhile isPyWS).reverse.dropWhile isPyWS).reverse

/-- Python substring test `needle in hay`: some suffix of `hay` starts with
`needle`. -/
def occursIn (needle : List Char) : List Char → Bool
  | [] => needle.isEmpty
  | c :: rest => needle.isPrefixOf (c :: rest) || occursIn needle rest

/-- The regex substitutions `re.sub(r'\n+', '\n', ·)` and `re.sub(r' +', ' ', ·)`
of `clean_text`: collapse every maximal run of the character `c` to a single
occurrence. -/
def squeeze (c : Char) : List Char → List Char
  | [] => []
  | [a] => [a]
  | a :: b :: rest =>
    if a = c ∧ b = c then squeeze c (b :: rest)
    else a :: squeeze c (b :: rest)

/-- Whether a match of the boilerplate pattern recognised by `pred` starts at
the head of `s`.  No pattern of `clean_text` can start on a newline (regex `.`
never matches `\n` and every pattern's first literal character is a letter). -/
def fireAt (pred : List Char → Bool) (s : List Char) : Bool :=
  match s with
  | [] => false
  | c :: _ => (c != '\n') && pred s

/-- One pass of `re.sub(pattern, '', text, flags=re.IGNORECASE)` for a
`clean_text` boilerplate pattern ending in `.*`: scanning left to right, at the
first position of each line where a match starts, delete from there to the end
of the line (regex `.` does not match `\n`, so a match runs to the newline).
The Bool argument tells whether the scanner is currently inside a deleted
match, i.e. dropping characters until the next newline. -/
def removeFromAux (pred : List Char → Bool) : Bool → List Char → List Char
  | _, [] => []
  | true, c :: rest =>
    if c = '\n' then c :: removeFromAux pred false rest
    else removeFromAux pred true rest
  | false, c :: rest =>
    if fireAt pred (c :: rest) then removeFromAux pred true rest
    else c :: removeFromAux pred false rest

/-- One pass of `re.sub(pattern, '', text, flags=re.IGNORECASE)` for a
`clean_text` boilerplate pattern ending in `.*`, starting in scanning mode. -/
def removeFrom (pred : List Char → Bool) (s : List Char) : List Char :=
  removeFromAux pred false s

/-- Case-insensitive literal prefix test: `lit` (already lower-case) starts the
lower-cased text `s`. -/
def ciPref (lit s : List Char) : Bool := lit.isPrefixOf (lower s)

/-- Case-insensitive literal occurrence test. -/
def ciOccurs (lit s : List Char) : Bool := occursIn lit (lower s)

/-- Trigger of `r'(Advertisement|Subscribe|Read More|Continue Reading).*'`. -/
def pat1Lits : List (List Char) :=
  ["advertisement", "subscribe", "read more", "continue reading"].map String.toList

/-- Alternatives of the group in `r'Share.*?(Facebook|Twitter|LinkedIn).*'`. -/
def socialLits : List (List Char) :=
  ["facebook", "twitter", "linkedin"].map String.toList

/-- A match of pattern `r'(Advertisement|Subscribe|Read More|Continue Reading).*'`
starts at the head of `s`. -/
def pred1 (s : List Char) : Bool := pat1Lits.any (fun lit => ciPref lit s)

/-- A match of pattern `r'Share.*?(Facebook|Twitter|LinkedIn).*'` starts at the
head of `s`: the literal `Share`, then one of the social-network names later in
the same line. -/
def pred2 (s : List Char) : Bool :=
  ciPref ("share".toList) s &&
    socialLits.any (fun lit => ciOccurs lit ((s.drop 5).takeWhile (fun c => c != '\n')))

/-- A match of pattern `r'Follow us on.*'` starts at the head of `s`. -/
def pred3 (s : List Char) : Bool := ciPref ("follow us on".toList) s

/-- A match of pattern `r'Also Read:.*'` starts at the head of `s`. -/
def pred4 (s : List Char) : Bool := ciPref ("also read:".toList) s

/-- A match of pattern `r'Related:.*'` starts at the head of `s`. -/
def pred5 (s : List Char) : Bool := ciPref ("related:".toList) s

/-- `RobustNewsScraper.clean_text` (and, behaviourally identical on every
input, `SimpleNewsScraper.clean_text`): collapse newline runs, collapse space
runs, delete the five boilerplate patterns to end of line, then strip.  The
leading `if` is the `if not text: return ""` guard of the robust variant. -/
def clean_text (text : List Char) : List Char :=
  if text = [] then []
  else
    strip
      (removeFrom pred5
        (removeFrom pred4
          (removeFrom pred3
            (removeFrom pred2
              (removeFrom pred1
                (squeeze ' ' (squeeze '\n' text)))))))

-- Keyword vocabularies of `RobustNewsScraper.__init__`, transcribed verbatim.

/-- `self.high_priority_defense`. -/
def high_priority_defense : List (List Char) :=
  ["drdo", "hal", "hindustan aeronautics", "bel", "bhel", "ordnance factory",
   "indian air force", "indian army", "indian navy", "coast guard",
   "tejas", "brahmos", "agni", "prithvi", "akash", "nag missile",
   "pinaka", "indigenous aircraft carrier", "ins vikrant", "ins arihant",
   "light combat aircraft", "advanced medium combat aircraft", "amca",
   "defence research", "military exercise", "surgical strike",
   "border security force", "central reserve police", "itbp",
   "defense procurement", "defense contract", "defense manufacturing",
   "atmanirbhar defense", "make in india defense", "defense export",
   "military modernization", "fighter aircraft", "combat helicopter",
   "naval ship", "submarine", "missile defense", "radar system",
   "electronic warfare", "cyber warfare", "military satellite"].map String.toList

/-- `self.high_priority_space`. -/
def high_priority_space : List (List Char) :=
  ["isro", "indian space research", "chandrayaan", "mangalyaan", "gaganyaan",
   "pslv", "gslv", "sslv", "rocket launch", "satellite launch",
   "space mission", "lunar mission", "mars mission", "venus mission",
   "earth observation", "communication satellite", "navigation satellite",
   "space technology", "space exploration", "orbital mission",
   "space station", "space program", "space policy", "space sector",
   "space startup", "commercial space", "space economy",
   "antrix", "nsil", "newspace india", "in-space",
   "skyroot", "agnikul", "pixxel", "bellatrix", "dhruva space",
   "space applications centre", "vikram sarabhai", "space centre",
   "satellite constellation", "remote sensing", "space research"].map String.toList

/-- `self.defense_keywords`. -/
def defense_keywords : List (List Char) :=
  ["defense", "defence", "military", "armed forces", "security forces",
   "border security", "national security", "homeland security",
   "peacekeeping", "counter-terrorism", "anti-terrorism",
   "strategic partnership", "defense cooperation", "military cooperation",
   "joint exercise", "bilateral exercise", "war game", "training exercise",
   "modernization", "procurement", "acquisition", "indigenous",
   "self-reliance", "strategic autonomy", "geopolitical",
   "warfare", "combat", "operational", "tactical", "strategic",
   "intelligence", "surveillance", "reconnaissance",
   "armament", "weaponry", "munitions", "ordinance",
   "fleet", "squadron", "regiment", "battalion", "brigade",
   "command", "headquarters", "base", "cantonment",
   "veteran", "soldier", "officer", "personnel", "deployment",
   "maritime security", "coastal security", "airspace",
   "line of control", "line of actual control", "ceasefire",
   "cross-border", "infiltration", "escalation", "deterrence"].map String.toList

/-- `self.space_keywords`. -/
def space_keywords : List (List Char) :=
  ["space", "satellite", "launch", "rocket", "mission", "orbit",
   "spacecraft", "probe", "lander", "rover", "orbiter",
   "astronaut", "cosmonaut", "space flight", "space travel",
   "launch vehicle", "propulsion", "engine", "fuel", "payload",
   "trajectory", "orbital", "interplanetary", "lunar", "planetary",
   "astronomy", "astrophysics", "space science", "cosmology",
   "telescope", "observatory", "space weather", "solar",
   "constellation", "network", "communication", "navigation",
   "positioning", "tracking", "monitoring", "imaging",
   "data", "signal", "transmission", "ground station",
   "mission control", "launch pad", "spaceport", "facility",
   "technology transfer", "commercial", "private sector",
   "startup", "innovation", "research", "development",
   "international", "collaboration", "partnership", "agreement"].map String.toList

/-- `self.exclusion_keywords`. -/
def exclusion_keywords : List (List Char) :=
  ["bollywood", "hollywood", "cinema", "movie", "film", "actor", "actress",
   "cricket", "football", "sports", "match", "tournament", "player",
   "recipe", "cooking", "food", "restaurant", "cuisine", "chef",
   "entertainment", "music", "concert", "show", "performance",
   "festival", "celebration", "wedding", "marriage", "ceremony",
   "stock market", "share price", "trading", "investment banking",
   "real estate", "property", "housing", "construction",
   "agriculture", "farming", "crop", "harvest", "farmer",
   "education", "school", "college", "university", "student",
   "healthcare", "hospital", "doctor", "patient", "treatment",
   "politics", "election", "voting", "campaign", "politician",
   "economics", "gdp", "inflation", "budget", "finance minister",
   "tourism", "travel", "vacation", "holiday", "destination",
   "weather", "climate", "rain", "temperature", "season"].map String.toList

/-- The defense-context list tested inside `is_relevant_article` when the
general-keyword count reaches 2. -/
def defense_context_terms : List (List Char) :=
  ["military", "defense", "defence", "armed forces", "security",
   "missile", "aircraft", "naval", "army", "air force"].map String.toList

/-- The space-context list tested inside `is_relevant_article` when the
general-keyword count reaches 2. -/
def space_context_terms : List (List Char) :=
  ["space", "satellite", "launch", "rocket", "mission", "isro",
   "orbital", "astronaut", "spacecraft"].map String.toList

/-- The lower-cased text `(str(title) + " " + str(content)).lower()` examined
by `is_relevant_article`. -/
def relevanceText (title content : List Char) : List Char :=
  lower (title ++ (" ".toList) ++ content)

/-- `RobustNewsScraper.is_relevant_article`, translated clause by clause:
reject when title and content are both empty; reject on any exclusion keyword;
accept on any high-priority keyword; otherwise require at least two general
keyword matches together with a defense- or space-context term in the text. -/
def is_relevant_article (title content : List Char) : Bool :=
  if title.isEmpty && content.isEmpty then false
  else if exclusion_keywords.any
      (fun kw => occursIn kw (relevanceText title content)) then false
  else if (high_priority_defense ++ high_priority_space).any
      (fun kw => occursIn kw (relevanceText title content)) then true
  else if 2 ≤ (defense_keywords.filter
          (fun kw => occursIn kw (relevanceText title content))).length
        + (space_keywords.filter
          (fun kw => occursIn kw (relevanceText title content))).length then
    defense_context_terms.any (fun t => occursIn t (relevanceText title content)) ||
      space_context_terms.any (fun t => occursIn t (relevanceText title content))
  else false

/-- `SimpleNewsScraper.is_relevant_article` (Main.py): a single flat keyword
list, any single match accepts. -/
def simple_keywords : List (List Char) :=
  ["india", "indian", "defense", "defence", "space", "isro", "hal", "drdo",
   "private", "contract", "deal", "startup", "investment", "manufacturing"].map String.toList

/-- `SimpleNewsScraper.is_relevant_article`. -/
def simple_is_relevant_article (title content : List Char) : Bool :=
  simple_keywords.any (fun kw => occursIn kw (relevanceText title content))

/-- C1: for every title and body, if the lower-cased concatenation contains at
least one exclusion-vocabulary term then `is_relevant_article` rejects.  The
exclusion test is the first keyword gate in the method body, so this holds even
when a high-priority keyword is also present. -/
theorem C1_exclusion_gate_rejects (title content : List Char)
    (h : exclusion_keywords.any
        (fun kw => occursIn kw (relevanceText title content)) = true) :
    is_relevant_article title content = false := by
  unfold is_relevant_article
  split
  · rfl
  · simp [h]

/-- Witness for C1: the scenario-2 style entry "cricket" / "indian army" has an
exclusion keyword (and a high-priority defense keyword) and is rejected. -/
theorem C1_exclusion_gate_rejects_witness :
    exclusion_keywords.any
        (fun kw =>
          occursIn kw (relevanceText ("cricket".toList) ("indian army".toList))) = true ∧
    is_relevant_article ("cricket".toList) ("indian army".toList) = false :=
  ⟨by decide, C1_exclusion_gate_rejects _ _ (by decide)⟩

/-- C2 counterexample: the title "tactical operational missile" contains no
exclusion keyword and no high-priority keyword, has exactly the general-keyword
matches "operational" and "tactical" — neither of which is a core-context term —
yet `is_relevant_article` accepts, because the method only requires some
core-context term ("missile" here) to occur somewhere in the text, not among
the counted matches.  This refutes the claim's characterisation of the accept
condition. -/
theorem C2_core_context_counterexample :
    is_relevant_article ("tactical operational missile".toList) [] = true ∧
    exclusion_keywords.any
      (fun kw =>
        occursIn kw (relevanceText ("tactical operational missile".toList) [])) = false ∧
    (high_priority_defense ++ high_priority_space).any
      (fun kw =>
        occursIn kw (relevanceText ("tactical operational missile".toList) [])) = false ∧
    ((defense_keywords ++ space_keywords).filter
        (fun kw =>
          occursIn kw (relevanceText ("tactical operational missile".toList) []))).any
      (fun kw => (defense_context_terms ++ space_context_terms).contains kw) = false := by
  decide

/-- C2 as amended: with no exclusion and no high-priority keyword in the text,
`is_relevant_article` accepts iff the total general defense- and space-keyword
match count is at least 2 AND the text contains at least one term of the
defense-context or space-context lists (the context term need not itself be one
of the counted general-keyword matches). -/
theorem C2_general_scoring (title content : List Char)
    (hexcl : exclusion_keywords.any
        (fun kw => occursIn kw (relevanceText title content)) = false)
    (hhp : (high_priority_defense ++ high_priority_space).any
        (fun kw => occursIn kw (relevanceText title content)) = false) :
    is_relevant_article title content = true ↔
      (2 ≤ (defense_keywords.filter
              (fun kw => occursIn kw (relevanceText title content))).length
            + (space_keywords.filter
              (fun kw => occursIn kw (relevanceText title content))).length ∧
       (defense_context_terms.any
            (fun t => occursIn t (relevanceText title content)) = true ∨
        space_context_terms.any
            (fun t => occursIn t (relevanceText title content)) = true)) := by
  by_cases hempty : (title.isEmpty && content.isEmpty) = true
  · obtain ⟨ht, hc⟩ := Bool.and_eq_true_iff.mp hempty
    rw [List.isEmpty_iff] at ht hc
    subst ht; subst hc
    decide
  · unfold is_relevant_article
    rw [if_neg hempty, if_neg (by simp [hexcl]), if_neg (by simp [hhp])]
    split
    · next hge =>
      simp only [Bool.or_eq_true]
      exact ⟨fun hctx => ⟨hge, hctx⟩, fun h => h.2⟩
    · next hge =>
      simp only [Bool.false_eq_true, false_iff, not_and]
      intro h
      exact absurd h hge

/-- Witness for C2: "warfare combat military" has three general defense matches
and the context term "military", no exclusion and no high-priority keyword, and
is accepted. -/
theorem C2_general_scoring_witness :
    is_relevant_article ("warfare combat military".toList) [] = true :=
  (C2_general_scoring _ _ (by decide) (by decide)).mpr (by decide)

/-- C4 counterexample: with an empty title and a relevant non-empty body both
classifiers accept, contradicting the claim that an empty title always causes
rejection.  `RobustNewsScraper.is_relevant_article` only short-circuits when
title and content are both empty, and `SimpleNewsScraper.is_relevant_article`
never looks at the title in isolation. -/
theorem C4_empty_title_counterexample :
    is_relevant_article [] ("drdo".toList) = true ∧
    simple_is_relevant_article [] ("india".toList) = true := by
  decide

/-- C4 as amended: the classifier rejects when the title and the body are both
empty; an empty title alone does not force rejection (the keyword gates run on
the body, as the counterexample shows). -/
theorem C4_empty_both_reject (title content : List Char)
    (ht : title.isEmpty = true) (hc : content.isEmpty = true) :
    is_relevant_article title content = false := by
  unfold is_relevant_article
  rw [ht, hc]
  rfl

/-- Witness for C4: the empty/empty entry is rejected. -/
theorem C4_empty_both_reject_witness :
    is_relevant_article [] [] = false :=
  C4_empty_both_reject [] [] (by decide) (by decide)

/-- What `extract_full_article` branches on after fetching a URL:
`fetchFailed` models `safe_request` returning `None`; `raised msg` models any
exception reaching the enclosing `except` (with the exception's message);
`page sel body` models a fetched document, where `sel` is the text of the
first element matching one of the content selectors (`none` when no selector
matches an element) and `body` the text of the `body` element (`none` when the
document has no body). -/
inductive FetchOutcome where
  | fetchFailed
  | raised (msg : List Char)
  | page (sel : Option (List Char)) (body : Option (List Char))

/-- Text of an optional element, "" when the element is absent. -/
def selText : Option (List Char) → List Char
  | some s => s
  | none => []

/-- The `content` variable of `extract_full_article` before cleaning: the
first matching selector's text, falling back to the body text when that is
empty (`if not content:`). -/
def rawContent (sel body : Option (List Char)) : List Char :=
  if selText sel = [] then selText body else selText sel

/-- `RobustNewsScraper.extract_full_article` as a function of the fetch
outcome: placeholder on fetch failure, error string on an exception, and
otherwise the cleaned content with the `"No content extracted"` fallback. -/
def extract_full_article : FetchOutcome → List Char
  | .fetchFailed => "Could not fetch article content".toList
  | .raised msg => ("Error extracting content: ".toList) ++ msg
  | .page sel body =>
    if clean_text (rawContent sel body) = [] then "No content extracted".toList
    else clean_text (rawContent sel body)

/-- `SimpleNewsScraper.extract_full_article` (Main.py): same structure but the
cleaned content is returned unguarded, so it can be empty. -/
def simple_extract_full_article : FetchOutcome → List Char
  | .fetchFailed => "Could not fetch article content".toList
  | .raised msg => ("Error extracting content: ".toList) ++ msg
  | .page sel body => clean_text (rawContent sel body)

/-- C5 counterexample: the Main.py variant of the extractor returns the empty
string on a document with no selector match and no body, refuting the claim
for that variant (the claim cites both variants as sources). -/
theorem C5_extract_counterexample :
    simple_extract_full_article (.page none none) = [] := by
  decide

/-- C5 as amended: the RobustNewsScraper extractor always returns a non-empty
string — real content or a descriptive placeholder — for every fetch outcome,
including an exception (modelled by `raised`, since the method catches every
exception) and a document with no selector match and no body.  The Main.py
variant can return the empty string instead. -/
theorem C5_extract_nonempty (o : FetchOutcome) : extract_full_article o ≠ [] := by
  cases o with
  | fetchFailed => decide
  | raised msg =>
    simp only [extract_full_article]
    intro h
    rw [List.append_eq_nil] at h
    exact absurd h.1 (by decide)
  | page sel body =>
    simp only [extract_full_article]
    split
    · decide
    · assumption

/-- Outcome of one HTTP attempt inside `safe_request`, matching the `except`
arms of the method: success (`raise_for_status` passes), `Timeout`,
`ConnectionError`, `HTTPError` carrying the response status code, another
`RequestException`, any other exception. -/
inductive AttemptOutcome where
  | success
  | timeout
  | connError
  | httpError (status : Nat)
  | requestError
  | otherError

/-- The retry loop of `RobustNewsScraper.safe_request`: `attempt` is the loop
index, `remaining` the iterations left.  Result: whether a response was
obtained, and how many attempts were made.  Timeouts, connection errors and
HTTP statuses 403/404/429 return `None` only on the last attempt
(`attempt == max_retries - 1`) and otherwise retry; every other failure
returns `None` immediately. -/
def safeRequestGo (outcomes : Nat → AttemptOutcome) (attempt : Nat) : Nat → Bool × Nat
  | 0 => (false, attempt)
  | remaining + 1 =>
    match outcomes attempt with
    | .success => (true, attempt + 1)
    | .timeout =>
      if remaining = 0 then (false, attempt + 1)
      else safeRequestGo outcomes (attempt + 1) remaining
    | .connError =>
      if remaining = 0 then (false, attempt + 1)
      else safeRequestGo outcomes (attempt + 1) remaining
    | .httpError s =>
      if s = 403 ∨ s = 404 ∨ s = 429 then
        if remaining = 0 then (false, attempt + 1)
        else safeRequestGo outcomes (attempt + 1) remaining
      else (false, attempt + 1)
    | .requestError => (false, attempt + 1)
    | .otherError => (false, attempt + 1)

/-- `RobustNewsScraper.safe_request` with `max_retries` attempts over the
given per-attempt outcomes. -/
def safe_request (outcomes : Nat → AttemptOutcome) (maxRetries : Nat) : Bool × Nat :=
  safeRequestGo outcomes 0 maxRetries

/-- C6 counterexample: with every attempt answering HTTP 404, `safe_request`
makes all 3 attempts (the claim says a 404 terminates without retries), while
an HTTP 500 terminates after 1 attempt (the claim says other non-200 statuses
are retried up to the limit).  The code's behaviour is the opposite of the
claim on both counts. -/
theorem C6_retry_counterexample :
    (safe_request (fun _ => .httpError 404) 3) = (false, 3) ∧
    (safe_request (fun _ => .httpError 500) 3) = (false, 1) := by
  decide

/-- Constant retryable outcomes exhaust the whole retry budget. -/
theorem safeRequestGo_retryable (o : AttemptOutcome)
    (ho : o = .timeout ∨ o = .connError ∨
      ∃ s, o = .httpError s ∧ (s = 403 ∨ s = 404 ∨ s = 429)) :
    ∀ r attempt, 0 < r →
      safeRequestGo (fun _ => o) attempt r = (false, attempt + r) := by
  intro r
  induction r with
  | zero => intro attempt h; omega
  | succ r ih =>
    intro attempt _
    rcases ho with h | h | ⟨s, h, hs⟩ <;> subst h <;> simp only [safeRequestGo]
    · by_cases hr : r = 0
      · subst hr; simp
      · rw [if_neg hr, ih attempt.succ (Nat.pos_of_ne_zero hr)]
        congr 1
        omega
    · by_cases hr : r = 0
      · subst hr; simp
      · rw [if_neg hr, ih attempt.succ (Nat.pos_of_ne_zero hr)]
        congr 1
        omega
    · rw [if_pos hs]
      by_cases hr : r = 0
      · subst hr; simp
      · rw [if_neg hr, ih attempt.succ (Nat.pos_of_ne_zero hr)]
        congr 1
        omega

/-- C6 as amended: timeouts, connection errors and HTTP 403/404/429 are
retried up to the bounded retry limit before `safe_request` gives up; every
other HTTP-error status and every other request exception terminates the
request after a single attempt. -/
theorem C6_retry_policy (n s : Nat) (hn : 0 < n) :
    safe_request (fun _ => .timeout) n = (false, n) ∧
    safe_request (fun _ => .connError) n = (false, n) ∧
    ((s = 403 ∨ s = 404 ∨ s = 429) →
      safe_request (fun _ => .httpError s) n = (false, n)) ∧
    (¬(s = 403 ∨ s = 404 ∨ s = 429) →
      safe_request (fun _ => .httpError s) n = (false, 1)) ∧
    safe_request (fun _ => .requestError) n = (false, 1) := by
  obtain ⟨m, rfl⟩ : ∃ m, n = m + 1 := ⟨n - 1, by omega⟩
  refine ⟨?_, ?_, ?_, ?_, ?_⟩
  · simpa using safeRequestGo_retryable _ (Or.inl rfl) (m + 1) 0 hn
  · simpa using safeRequestGo_retryable _ (Or.inr (Or.inl rfl)) (m + 1) 0 hn
  · intro hs
    simpa using safeRequestGo_retryable _ (Or.inr (Or.inr ⟨s, rfl, hs⟩)) (m + 1) 0 hn
  · intro hs
    simp only [safe_request, safeRequestGo]
    rw [if_neg hs]
  · simp only [safe_request, safeRequestGo]

/-- Witness for C6: the amended policy at 3 retries, status 404 (retried to
exhaustion) and at status 500 via the complement arm. -/
theorem C6_retry_policy_witness :
    safe_request (fun _ => .timeout) 3 = (false, 3) ∧
    safe_request (fun _ => .httpError 404) 3 = (false, 3) ∧
    safe_request (fun _ => .httpError 500) 3 = (false, 1) :=
  ⟨(C6_retry_policy 3 404 (by decide)).1,
   (C6_retry_policy 3 404 (by decide)).2.2.1 (by decide),
   (C6_retry_policy 3 500 (by decide)).2.2.2.1 (by decide)⟩

/-- Publish-date information of a feed entry as seen by `scrape_rss_feeds`:
`absent` models a missing or falsy `entry.published_parsed`; `valid d` a time
struct whose `datetime(*struct[:6])` conversion succeeds and yields the point
in time `d` (encoded as an integer); `malformed` a time struct on which the
conversion raises. -/
inductive PubDate where
  | absent
  | valid (d : Int)
  | malformed
deriving DecidableEq

/-- A feed entry, with the fields the per-entry filtering of
`scrape_rss_feeds` reads. -/
structure Entry where
  title : List Char
  summary : List Char
  published : PubDate
deriving DecidableEq

/-- The date window test of `scrape_rss_feeds`: an absent date is never
filtered; a conversion error lands in the `except` arm, whose `continue`
skips the entry; a valid date passes unless strictly older than the cutoff
(`if pub_date < cutoff_date: continue`). -/
def entryPassesDate (cutoff : Int) : PubDate → Bool
  | .absent => true
  | .valid d => if d < cutoff then false else true
  | .malformed => false

/-- The per-entry date-window and relevance filtering of `scrape_rss_feeds`:
the entries of a feed that survive both `continue` checks and reach article
assembly (content extraction does not affect which entries are kept). -/
def harvestKept (cutoff : Int) (entries : List Entry) : List Entry :=
  entries.filter
    (fun e => entryPassesDate cutoff e.published && is_relevant_article e.title e.summary)

/-- C7 counterexample: a relevant entry whose publish-date struct fails to
convert (`datetime(*struct[:6])` raises) is skipped by the `except ...:
continue` arm, contradicting the claim that an unparseable date falls back to
"now" and leaves the entry unskipped. -/
theorem C7_malformed_date_counterexample :
    is_relevant_article ("drdo missile test".toList) [] = true ∧
    harvestKept 0 [⟨("drdo missile test".toList), [], .malformed⟩] = [] := by
  decide

/-- C7 as amended: an entry with an absent publish date is not skipped by the
age filter (it is kept iff relevant); an entry whose date struct fails to
convert is always skipped, regardless of relevance; an entry with a valid
parsed date is kept iff the date is not strictly older than the cutoff and the
entry is relevant. -/
theorem C7_date_filter (cutoff : Int) (entries : List Entry) (e : Entry) :
    (e ∈ entries → e.published = .absent →
      is_relevant_article e.title e.summary = true → e ∈ harvestKept cutoff entries) ∧
    (e.published = .malformed → e ∉ harvestKept cutoff entries) ∧
    (∀ d, e.published = .valid d →
      (e ∈ harvestKept cutoff entries ↔
        e ∈ entries ∧ ¬(d < cutoff) ∧ is_relevant_article e.title e.summary = true)) := by
  refine ⟨?_, ?_, ?_⟩
  · intro hmem hpub hrel
    exact List.mem_filter.mpr ⟨hmem, by simp [entryPassesDate, hpub, hrel]⟩
  · intro hpub hmem
    have := (List.mem_filter.mp hmem).2
    rw [hpub] at this
    simp [entryPassesDate] at this
  · intro d hpub
    constructor
    · intro hmem
      obtain ⟨h1, h2⟩ := List.mem_filter.mp hmem
      rw [hpub] at h2
      simp only [entryPassesDate, Bool.and_eq_true] at h2
      refine ⟨h1, ?_, h2.2⟩
      intro hlt
      rw [if_pos hlt] at h2
      exact absurd h2.1 (by decide)
    · rintro ⟨h1, h2, h3⟩
      exact List.mem_filter.mpr ⟨h1, by simp [entryPassesDate, hpub, if_neg h2, h3]⟩

/-- Witness for C7: an entry with an absent date and a relevant title is kept
with cutoff 0, and the same entry with a malformed date is not. -/
theorem C7_date_filter_witness :
    (⟨("drdo missile test".toList), [], .absent⟩ : Entry) ∈
      harvestKept 0 [⟨("drdo missile test".toList), [], .absent⟩] ∧
    (⟨("isro rocket launch".toList), [], .malformed⟩ : Entry) ∉
      harvestKept 0 [⟨("isro rocket launch".toList), [], .malformed⟩] :=
  ⟨(C7_date_filter 0 _ _).1 (by decide) rfl (by decide),
   (C7_date_filter 0 _ _).2.1 rfl⟩

/-- Article record as assembled by `scrape_rss_feeds`; the fields not read by
`remove_duplicates` or the claims are omitted. -/
structure Article where
  title : List Char
  url : List Char
deriving DecidableEq

/-- The regex class `\w` (ASCII model): letters, digits, underscore. -/
def isWordChar (c : Char) : Bool := c.isAlpha || c.isDigit || c == '_'

/-- Scanner for Python `str.split()`: `cur` accumulates the current token in
reverse; whitespace flushes it. -/
def pySplitGo (cur : List Char) : List Char → List (List Char)
  | [] => if cur = [] then [] else [cur.reverse]
  | c :: rest =>
    if isPyWS c then
      if cur = [] then pySplitGo [] rest
      else cur.reverse :: pySplitGo [] rest
    else pySplitGo (c :: cur) rest

/-- Python `str.split()` with no argument: whitespace-separated tokens, with
no empty tokens. -/
def pySplit (s : List Char) : List (List Char) := pySplitGo [] s

/-- Dedup key of `remove_duplicates`:
`re.sub(r'[^\w\s]', '', title.lower())` then `' '.join(key.split()[:5])`. -/
def titleKey (title : List Char) : List Char :=
  List.intercalate (" ".toList)
    ((pySplit ((lower title).filter (fun c => isWordChar c || isPyWS c))).take 5)

/-- The scan of `RobustNewsScraper.remove_duplicates`: an article is kept when
its title key is not in `seen_titles` and the stripped key is non-empty
(`if title_key not in seen_titles and title_key.strip():`). -/
def removeDupGo (seen : List (List Char)) : List Article → List Article
  | [] => []
  | a :: rest =>
    if titleKey a.title ∉ seen ∧ strip (titleKey a.title) ≠ [] then
      a :: removeDupGo (titleKey a.title :: seen) rest
    else removeDupGo seen rest

/-- `RobustNewsScraper.remove_duplicates`. -/
def remove_duplicates (articles : List Article) : List Article :=
  removeDupGo [] articles

/-- The output of the dedup scan is a subsequence of its input. -/
theorem removeDupGo_sublist (l : List Article) :
    ∀ seen, List.Sublist (removeDupGo seen l) l := by
  induction l with
  | nil => intro seen; simp [removeDupGo]
  | cons a rest ih =>
    intro seen
    simp only [removeDupGo]
    split
    · exact List.Sublist.cons₂ a (ih _)
    · exact List.Sublist.cons a (ih seen)

/-- Every article kept by the dedup scan has a key outside `seen`. -/
theorem removeDupGo_key_not_seen (l : List Article) :
    ∀ seen b, b ∈ removeDupGo seen l → titleKey b.title ∉ seen := by
  induction l with
  | nil => intro seen b h; simp [removeDupGo] at h
  | cons a rest ih =>
    intro seen b h
    simp only [removeDupGo] at h
    split at h
    · next hc =>
      rcases List.mem_cons.mp h with rfl | h
      · exact hc.1
      · intro hs
        exact ih _ b h (List.mem_cons_of_mem _ hs)
    · exact ih seen b h

/-- Every article kept by the dedup scan has a non-blank key. -/
theorem removeDupGo_key_not_blank (l : List Article) :
    ∀ seen b, b ∈ removeDupGo seen l → strip (titleKey b.title) ≠ [] := by
  induction l with
  | nil => intro seen b h; simp [removeDupGo] at h
  | cons a rest ih =>
    intro seen b h
    simp only [removeDupGo] at h
    split at h
    · next hc =>
      rcases List.mem_cons.mp h with rfl | h
      · exact hc.2
      · exact ih _ b h
    · exact ih seen b h

/-- No two articles kept by the dedup scan share a key. -/
theorem removeDupGo_pairwise (l : List Article) :
    ∀ seen, (removeDupGo seen l).Pairwise
      (fun a b => titleKey a.title ≠ titleKey b.title) := by
  induction l with
  | nil => intro seen; simp [removeDupGo]
  | cons a rest ih =>
    intro seen
    simp only [removeDupGo]
    split
    · refine List.Pairwise.cons ?_ (ih _)
      intro b hb heq
      exact removeDupGo_key_not_seen rest _ b hb (heq ▸ List.mem_cons_self _ _)
    · exact ih seen

/-- The first article of the input carrying a given fresh non-blank key is
kept by the dedup scan. -/
theorem removeDupGo_first_kept (l : List Article) :
    ∀ seen a, a ∈ l → titleKey a.title ∉ seen → strip (titleKey a.title) ≠ [] →
      ∃ b, List.find? (fun x => titleKey x.title == titleKey a.title) l = some b ∧
        b ∈ removeDupGo seen l := by
  induction l with
  | nil => intro seen a h; exact absurd h (List.not_mem_nil a)
  | cons x rest ih =>
    intro seen a hmem hseen hblank
    by_cases hkey : titleKey x.title = titleKey a.title
    · refine ⟨x, ?_, ?_⟩
      · rw [List.find?_cons_of_pos _ (by simp [hkey])]
      · simp only [removeDupGo]
        rw [if_pos ⟨hkey ▸ hseen, hkey ▸ hblank⟩]
        exact List.mem_cons_self _ _
    · have hmem' : a ∈ rest := by
        rcases List.mem_cons.mp hmem with rfl | h
        · exact absurd rfl hkey
        · exact h
      rw [List.find?_cons_of_neg _ (by simp [hkey])]
      simp only [removeDupGo]
      split
    
      · obtain ⟨b, hfind, hb⟩ := ih (titleKey x.title :: seen) a hmem'
          (by
            intro hc
            rcases List.mem_cons.mp hc with hc | hc
            · exact hkey hc.symm
            · exact hseen hc)
          hblank
        exact ⟨b, hfind, List.mem_cons_of_mem _ hb⟩
      · exact ih seen a hmem' hseen hblank

/-- C8 counterexample: an article whose title is all punctuation has an empty
dedup key and is silently dropped, so `remove_duplicates` does not keep the
first occurrence of that article's duplicate group, refuting the claim on a
one-element list. -/
theorem C8_dedupe_counterexample :
    ¬ ∃ b ∈ remove_duplicates [({ title := "!!!".toList, url := "u1".toList } : Article)],
      titleKey b.title = titleKey ("!!!".toList) := by
  decide

/-- C8 as amended: `remove_duplicates` is order-preserving (its output is a
subsequence of its input), no two output articles share a title key, and for
every input article whose key is non-blank the first input article with that
key appears in the output.  (Articles with a blank key are dropped; that case
is the subject of the companion claim.) -/
theorem C8_dedupe_correct (l : List Article) :
    List.Sublist (remove_duplicates l) l ∧
    (remove_duplicates l).Pairwise (fun a b => titleKey a.title ≠ titleKey b.title) ∧
    ∀ a ∈ l, strip (titleKey a.title) ≠ [] →
      ∃ b, List.find? (fun x => titleKey x.title == titleKey a.title) l = some b ∧
        b ∈ remove_duplicates l :=
  ⟨removeDupGo_sublist l [],
   removeDupGo_pairwise l [],
   fun a hmem hblank =>
     removeDupGo_first_kept l [] a hmem (List.not_mem_nil _) hblank⟩

/-- Witness for C8 at the spec's end-to-end scenario 3: the two "ISRO Launches
PSLV Rocket Successfully( Today)" titles share a five-token key and only the
first of the pair is kept. -/
theorem C8_dedupe_correct_witness :
    List.Sublist
      (remove_duplicates
        [({ title := "ISRO Launches PSLV Rocket Successfully".toList, url := "u1".toList } : Article),
         ({ title := "ISRO Launches PSLV Rocket Successfully Today".toList, url := "u2".toList } : Article)])
      [({ title := "ISRO Launches PSLV Rocket Successfully".toList, url := "u1".toList } : Article),
       ({ title := "ISRO Launches PSLV Rocket Successfully Today".toList, url := "u2".toList } : Article)] ∧
    ∃ b, List.find?
        (fun x => titleKey x.title ==
          titleKey ("ISRO Launches PSLV Rocket Successfully Today".toList))
        [({ title := "ISRO Launches PSLV Rocket Successfully".toList, url := "u1".toList } : Article),
         ({ title := "ISRO Launches PSLV Rocket Successfully Today".toList, url := "u2".toList } : Article)] = some b ∧
      b ∈ remove_duplicates
        [({ title := "ISRO Launches PSLV Rocket Successfully".toList, url := "u1".toList } : Article),
         ({ title := "ISRO Launches PSLV Rocket Successfully Today".toList, url := "u2".toList } : Article)] :=
  ⟨(C8_dedupe_correct _).1,
   (C8_dedupe_correct _).2.2
     ({ title := "ISRO Launches PSLV Rocket Successfully Today".toList, url := "u2".toList } : Article)
     (List.mem_cons_of_mem _ (List.mem_cons_self _ _)) (by decide)⟩

/-- C9: an article whose normalized title key strips to the empty string
(title absent, empty, or all punctuation/whitespace) never appears in the
output of `remove_duplicates` — it is silently dropped rather than kept as a
distinct non-duplicate. -/
theorem C9_blank_key_dropped (l : List Article) (a : Article)
    (h : strip (titleKey a.title) = []) : a ∉ remove_duplicates l := by
  intro hmem
  exact removeDupGo_key_not_blank l [] a hmem h

/-- Witness for C9: the all-punctuation title "!!!" is dropped even though no
other article shares its key. -/
theorem C9_blank_key_dropped_witness :
    ({ title := "!!!".toList, url := "u1".toList } : Article) ∉
      remove_duplicates
        [({ title := "!!!".toList, url := "u1".toList } : Article),
         ({ title := "ISRO".toList, url := "u2".toList } : Article)] :=
  C9_blank_key_dropped _ _ (by decide)

/-- Calendar date as carried by the `datetime` values inside `parse_date`. -/
structure Date where
  day : Nat
  month : Nat
  year : Nat
deriving DecidableEq

/-- Full English month name, as produced by `strftime("%B")`. -/
def monthName : Nat → List Char
  | 1 => "January".toList
  | 2 => "February".toList
  | 3 => "March".toList
  | 4 => "April".toList
  | 5 => "May".toList
  | 6 => "June".toList
  | 7 => "July".toList
  | 8 => "August".toList
  | 9 => "September".toList
  | 10 => "October".toList
  | 11 => "November".toList
  | 12 => "December".toList
  | _ => []

/-- Zero-padded two-digit rendering, as produced by `strftime("%d")`. -/
def pad2 (n : Nat) : List Char :=
  if n < 10 then '0' :: Nat.toDigits 10 n else Nat.toDigits 10 n

/-- `strftime("%d %B %Y")`: zero-padded day, full month name, year. -/
def formatDate (d : Date) : List Char :=
  pad2 d.day ++ (" ".toList) ++ monthName d.month ++ (" ".toList) ++ Nat.toDigits 10 d.year

/-- The input of `parse_date`: `missing` models `None` or any falsy value
(`if not date_string:`); `timeStruct d` a feedparser time struct, where `d` is
`none` when the `datetime(*struct[:6])` conversion raises (caught by the outer
`except`, which falls through to the final return); `str s` a string date. -/
inductive DateInput where
  | missing
  | timeStruct (d : Option Date)
  | str (s : List Char)
deriving DecidableEq

/-- Numeric value of a digit string. -/
def digitsToNat (l : List Char) : Nat :=
  l.foldl (fun acc c => 10 * acc + (c.toNat - ('0').toNat)) 0

/-- Validity bounds enforced by `datetime.strptime` (month 1-12, day 1-31;
per-month day counts are abstracted to the 31 bound). -/
def chkDate (y m d : Nat) : Option Date :=
  if 1 ≤ m ∧ m ≤ 12 ∧ 1 ≤ d ∧ d ≤ 31 then some ⟨d, m, y⟩ else none

/-- `datetime.strptime(s, "%Y-%m-%d")` (model: zero-padded fields). -/
def parseYMD : List Char → Option Date
  | [y1, y2, y3, y4, '-', m1, m2, '-', d1, d2] =>
    if y1.isDigit && y2.isDigit && y3.isDigit && y4.isDigit &&
        m1.isDigit && m2.isDigit && d1.isDigit && d2.isDigit then
      chkDate (digitsToNat [y1, y2, y3, y4]) (digitsToNat [m1, m2]) (digitsToNat [d1, d2])
    else none
  | _ => none

/-- `datetime.strptime(s, "%d/%m/%Y")` (model: zero-padded fields). -/
def parseDMY : List Char → Option Date
  | [d1, d2, '/', m1, m2, '/', y1, y2, y3, y4] =>
    if y1.isDigit && y2.isDigit && y3.isDigit && y4.isDigit &&
        m1.isDigit && m2.isDigit && d1.isDigit && d2.isDigit then
      chkDate (digitsToNat [y1, y2, y3, y4]) (digitsToNat [m1, m2]) (digitsToNat [d1, d2])
    else none
  | _ => none

/-- `datetime.strptime(s, "%m/%d/%Y")` (model: zero-padded fields). -/
def parseMDY : List Char → Option Date
  | [m1, m2, '/', d1, d2, '/', y1, y2, y3, y4] =>
    if y1.isDigit && y2.isDigit && y3.isDigit && y4.isDigit &&
        m1.isDigit && m2.isDigit && d1.isDigit && d2.isDigit then
      chkDate (digitsToNat [y1, y2, y3, y4]) (digitsToNat [m1, m2]) (digitsToNat [d1, d2])
    else none
  | _ => none

/-- `datetime.strptime(s, "%Y-%m-%d %H:%M:%S")` (model: zero-padded fields;
the time-of-day fields are validated and then discarded, as `strftime` of the
resulting datetime only renders the date). -/
def parseYMDHMS : List Char → Option Date
  | [y1, y2, y3, y4, '-', m1, m2, '-', d1, d2, ' ',
     h1, h2, ':', i1, i2, ':', s1, s2] =>
    if y1.isDigit && y2.isDigit && y3.isDigit && y4.isDigit &&
        m1.isDigit && m2.isDigit && d1.isDigit && d2.isDigit &&
        h1.isDigit && h2.isDigit && i1.isDigit && i2.isDigit &&
        s1.isDigit && s2.isDigit &&
        decide (digitsToNat [h1, h2] ≤ 23) && decide (digitsToNat [i1, i2] ≤ 59) &&
        decide (digitsToNat [s1, s2] ≤ 59) then
      chkDate (digitsToNat [y1, y2, y3, y4]) (digitsToNat [m1, m2]) (digitsToNat [d1, d2])
    else none
  | _ => none

/-- The `for fmt in [...]` loop of `parse_date`: the four formats are tried in
order, the first success wins. -/
def tryFormats (s : List Char) : Option Date :=
  match parseYMD s with
  | some d => some d
  | none =>
    match parseDMY s with
    | some d => some d
    | none =>
      match parseMDY s with
      | some d => some d
      | none => parseYMDHMS s

/-- `RobustNewsScraper.parse_date` (and the identical
`SimpleNewsScraper.parse_date`), as a function of the current date `now`:
falsy input, a failing struct conversion, or a string matching none of the
four formats all fall through to `datetime.now().strftime("%d %B %Y")`. -/
def parse_date (now : Date) : DateInput → List Char
  | .missing => formatDate now
  | .timeStruct (some d) => formatDate d
  | .timeStruct none => formatDate now
  | .str s =>
    match tryFormats s with
    | some d => formatDate d
    | none => formatDate now

/-- C10: `parse_date` is total and always returns a `"%d %B %Y"`-formatted
date string; whenever the input is absent, the struct conversion fails, or the
string matches none of the supported formats, that date is the current date.
Totality (the Python method never raises) is reflected by `parse_date` being a
total function in which every exception arm of the source is an explicit
fall-through to the current date. -/
theorem C10_parse_date_total (now : Date) (input : DateInput) :
    ∃ d, parse_date now input = formatDate d ∧
      ((input = .missing ∨ input = .timeStruct none ∨
        (∃ s, input = .str s ∧ tryFormats s = none)) → d = now) := by
  cases input with
  | missing => exact ⟨now, rfl, fun _ => rfl⟩
  | timeStruct d? =>
    cases d? with
    | none => exact ⟨now, rfl, fun _ => rfl⟩
    | some d =>
      refine ⟨d, rfl, fun h => ?_⟩
      rcases h with h | h | ⟨s, h, _⟩ <;> exact absurd h (by simp)
  | str s =>
    cases h : tryFormats s with
    | none =>
      refine ⟨now, ?_, fun _ => rfl⟩
      simp [parse_date, h]
    | some d =>
      refine ⟨d, ?_, fun hc => ?_⟩
      · simp [parse_date, h]
      · rcases hc with hc | hc | ⟨s', hc, hf⟩
        · exact absurd hc (by simp)
        · exact absurd hc (by simp)
        · rw [DateInput.str.injEq] at hc
          rw [hc] at h
          rw [h] at hf
          exact absurd hf (by simp)

/-- Witness for C10: an unparseable string falls back to the supplied current
date, here rendered "11 October 2026". -/
theorem C10_parse_date_total_witness :
    parse_date ⟨11, 10, 2026⟩ (.str ("last Tuesday".toList)) =
      ("11 October 2026".toList) := by
  obtain ⟨d, hd, hnow⟩ := C10_parse_date_total ⟨11, 10, 2026⟩ (.str ("last Tuesday".toList))
  rw [hd, hnow (Or.inr (Or.inr ⟨_, rfl, by decide⟩))]
  decide

/-- No two adjacent occurrences of the character `c`; the invariant
`squeeze c` establishes and the condition under which it is the identity. -/
def noDouble (c : Char) (s : List Char) : Prop :=
  List.Chain' (fun a b => ¬(a = c ∧ b = c)) s

/-- Squeezing never changes the first character. -/
theorem squeeze_head? (c : Char) : ∀ s : List Char, (squeeze c s).head? = s.head?
  | [] => rfl
  | [_] => rfl
  | a :: b :: rest => by
    simp only [squeeze]
    split
    · next h =>
      rw [squeeze_head? c (b :: rest)]
      simp [h.1, h.2]
    · rfl

/-- The output of `squeeze c` has no run of two or more `c`s. -/
theorem squeeze_noDouble (c : Char) : ∀ s : List Char, noDouble c (squeeze c s)
  | [] => List.chain'_nil
  | [a] => List.chain'_singleton a
  | a :: b :: rest => by
    simp only [squeeze]
    split
    · exact squeeze_noDouble c (b :: rest)
    · next h =>
      rw [noDouble, List.chain'_cons']
      refine ⟨?_, squeeze_noDouble c (b :: rest)⟩
      intro y hy
      rw [squeeze_head? c (b :: rest)] at hy
      simp only [List.head?_cons, Option.mem_def, Option.some.injEq] at hy
      subst hy
      exact h

/-- `squeeze c` is the identity on strings without double `c`s. -/
theorem squeeze_eq_self (c : Char) : ∀ s : List Char, noDouble c s → squeeze c s = s
  | [], _ => rfl
  | [_], _ => rfl
  | a :: b :: rest, h => by
    rw [noDouble, List.chain'_cons'] at h
    have hab : ¬(a = c ∧ b = c) := h.1 b (by simp)
    simp only [squeeze, if_neg hab]
    rw [squeeze_eq_self c (b :: rest) h.2]

/-- Squeezing one character cannot create a double of another (or of the
same) character. -/
theorem squeeze_noDouble_preserved (c d : Char) : ∀ s : List Char,
    noDouble d s → noDouble d (squeeze c s)
  | [], _ => List.chain'_nil
  | [a], _ => List.chain'_singleton a
  | a :: b :: rest, h => by
    rw [noDouble, List.chain'_cons'] at h
    simp only [squeeze]
    split
    · exact squeeze_noDouble_preserved c d (b :: rest) h.2
    · rw [noDouble, List.chain'_cons']
      refine ⟨?_, squeeze_noDouble_preserved c d (b :: rest) h.2⟩
      intro y hy
      rw [squeeze_head? c (b :: rest)] at hy
      simp only [List.head?_cons, Option.mem_def, Option.some.injEq] at hy
      subst hy
      exact h.1 b (by simp)

/-- Every suffix of a squeezed string is the squeeze of a suffix. -/
theorem squeeze_drop (c : Char) : ∀ (s : List Char) (k : Nat),
    ∃ m, (squeeze c s).drop k = squeeze c (s.drop m)
  | [], _ => ⟨0, by simp [squeeze]⟩
  | [_], 0 => ⟨0, rfl⟩
  | [_], _ + 1 => ⟨1, by simp [squeeze]⟩
  | _ :: _ :: _, 0 => ⟨0, rfl⟩
  | a :: b :: rest, k + 1 => by
    simp only [squeeze]
    split
    · obtain ⟨m, hm⟩ := squeeze_drop c (b :: rest) (k + 1)
      exact ⟨m + 1, by simpa using hm⟩
    · simp only [List.drop_succ_cons]
      obtain ⟨m, hm⟩ := squeeze_drop c (b :: rest) k
      exact ⟨m + 1, by simpa using hm⟩

/-- Squeezing `c` does not change the text before the first `c`. -/
theorem squeeze_takeWhile_ne (c : Char) : ∀ s : List Char,
    (squeeze c s).takeWhile (fun a => a != c) = s.takeWhile (fun a => a != c)
  | [] => rfl
  | [_] => rfl
  | a :: b :: rest => by
    simp only [squeeze]
    split
    · next h =>
      rw [squeeze_takeWhile_ne c (b :: rest)]
      simp [List.takeWhile_cons, h.1, h.2]
    · rw [List.takeWhile_cons, List.takeWhile_cons, squeeze_takeWhile_ne c (b :: rest)]

/-- Squeezing preserves the last character when that character is not `c`. -/
theorem squeeze_getLast? (c : Char) : ∀ s : List Char,
    s.getLast? ≠ some c → (squeeze c s).getLast? = s.getLast?
  | [], _ => rfl
  | [_], _ => rfl
  | a :: b :: rest, h => by
    have hlast : (a :: b :: rest).getLast? = (b :: rest).getLast? :=
      List.getLast?_cons_cons
    have h' : (b :: rest).getLast? ≠ some c := by rw [← hlast]; exact h
    simp only [squeeze]
    split
    · rw [squeeze_getLast? c (b :: rest) h', hlast]
    · have ih := squeeze_getLast? c (b :: rest) h'
      have hne : squeeze c (b :: rest) ≠ [] := by
        intro hnil
        have hh := squeeze_head? c (b :: rest)
        rw [hnil] at hh
        simp at hh
      obtain ⟨x, t, hxt⟩ := List.exists_cons_of_ne_nil hne
      rw [hxt, List.getLast?_cons_cons, ← hxt, ih, hlast]

/-- A string is fire-free for `pred` when no boilerplate match starts at any
of its positions; on such strings `removeFrom pred` is the identity. -/
def fireFree (pred : List Char → Bool) (s : List Char) : Prop :=
  ∀ n, fireAt pred (s.drop n) = false

theorem fireFree_nil (pred : List Char → Bool) : fireFree pred [] := by
  intro n
  simp [fireAt]

theorem fireFree_cons (pred : List Char → Bool) (c : Char) (t : List Char) :
    fireFree pred (c :: t) ↔ fireAt pred (c :: t) = false ∧ fireFree pred t := by
  constructor
  · intro h
    exact ⟨h 0, fun n => h (n + 1)⟩
  · rintro ⟨h0, h⟩ n
    match n with
    | 0 => exact h0
    | n + 1 => exact h n

/-- A pattern predicate only reads the current line, monotonically: if the
first line of `s` is a prefix of the first line of `t`, a match at the head of
`s` gives a match at the head of `t`. -/
def lineMono (pred : List Char → Bool) : Prop :=
  ∀ s t : List Char,
    s.takeWhile (fun a => a != '\n') <+: t.takeWhile (fun a => a != '\n') →
    pred s = true → pred t = true

theorem fireAt_mono (pred : List Char → Bool) (hm : lineMono pred) (u v : List Char)
    (hp : u.takeWhile (fun a => a != '\n') <+: v.takeWhile (fun a => a != '\n'))
    (hf : fireAt pred u = true) : fireAt pred v = true := by
  match u, hf with
  | c :: u', hf =>
    rw [fireAt, Bool.and_eq_true, bne_iff_ne] at hf
    rw [List.takeWhile_cons, if_pos (by simpa using hf.1)] at hp
    match v, hp with
    | d :: v', hp =>
      rw [List.takeWhile_cons] at hp
      split at hp
      · next hd =>
        rw [List.cons_prefix_cons] at hp
        have hdc : d = c := hp.1.symm
        rw [fireAt, Bool.and_eq_true, bne_iff_ne]
        exact ⟨by simpa [hdc] using hf.1, hm (c :: u') (d :: v') (by
          rw [List.takeWhile_cons, if_pos (by simpa using hf.1),
            List.takeWhile_cons, if_pos hd]
          rw [List.cons_prefix_cons]
          exact ⟨hp.1.symm ▸ rfl, hp.2⟩) hf.2⟩
      · exact absurd hp (by simp [List.cons_prefix_cons])

/-- Bridge from the Boolean prefix test to the `IsPrefix` relation. -/
theorem isPrefixOf_eq_pref (l₁ l₂ : List Char) : l₁.isPrefixOf l₂ = true ↔ l₁ <+: l₂ :=
  List.isPrefixOf_iff_prefix

/-- The `takeWhile` of a list is one of its prefixes. -/
theorem takeWhile_pref (p : Char → Bool) (l : List Char) : l.takeWhile p <+: l :=
  List.takeWhile_prefix p

/-- The empty list is a prefix of every list. -/
theorem nil_pref (l : List Char) : [] <+: l := ⟨l, rfl⟩

/-- `takeWhile` is monotone with respect to the prefix order. -/
theorem takeWhile_pref_mono (p : Char → Bool) (u v : List Char) (h : u <+: v) :
    u.takeWhile p <+: v.takeWhile p := by
  obtain ⟨t, rfl⟩ := h
  induction u with
  | nil => exact nil_pref _
  | cons c u' ih =>
    rw [List.cons_append, List.takeWhile_cons, List.takeWhile_cons]
    split
    · exact (List.cons_prefix_cons).mpr ⟨rfl, ih⟩
    · exact nil_pref _

/-- In deleting mode the output starts at a newline (or is empty). -/
theorem removeFromAux_true_head (pred : List Char → Bool) : ∀ s : List Char,
    (removeFromAux pred true s).head? = some '\n' ∨ (removeFromAux pred true s).head? = none
  | [] => Or.inr rfl
  | c :: rest => by
    simp only [removeFromAux]
    split
    · next h => exact Or.inl (by simp [h])
    · exact removeFromAux_true_head pred rest

/-- In scanning mode the output keeps the input's first character unless a
deletion starts there, in which case it starts at a newline or is empty. -/
theorem removeFromAux_false_head (pred : List Char → Bool) : ∀ s : List Char,
    (removeFromAux pred false s).head? = s.head? ∨
      (removeFromAux pred false s).head? = some '\n' ∨
      (removeFromAux pred false s).head? = none
  | [] => Or.inl rfl
  | c :: rest => by
    simp only [removeFromAux]
    split
    · rcases removeFromAux_true_head pred rest with h | h
      · exact Or.inr (Or.inl h)
      · exact Or.inr (Or.inr h)
    · exact Or.inl rfl

/-- A list starting at a newline (or empty) has an empty first line. -/
theorem takeWhile_eq_nil_of_head_nl (l : List Char)
    (h : l.head? = some '\n' ∨ l.head? = none) :
    l.takeWhile (fun a => a != '\n') = [] := by
  match l with
  | [] => rfl
  | c :: t =>
    rcases h with h | h
    · simp only [List.head?_cons, Option.some.injEq] at h
      subst h
      simp [List.takeWhile_cons]
    · simp at h

/-- The first line of a `removeFromAux` pass is a prefix of the input's first
line. -/
theorem removeFromAux_takeWhile (pred : List Char → Bool) :
    ∀ (s : List Char) (mode : Bool),
      (removeFromAux pred mode s).takeWhile (fun a => a != '\n') <+:
        s.takeWhile (fun a => a != '\n')
  | [], _ => by simp [removeFromAux]
  | c :: rest, true => by
    rw [takeWhile_eq_nil_of_head_nl _ (removeFromAux_true_head pred (c :: rest))]
    exact nil_pref _
  | c :: rest, false => by
    simp only [removeFromAux]
    split
    · rw [takeWhile_eq_nil_of_head_nl _ (removeFromAux_true_head pred rest)]
      exact nil_pref _
    · rw [List.takeWhile_cons, List.takeWhile_cons]
      split
      · exact (List.cons_prefix_cons).mpr ⟨rfl, removeFromAux_takeWhile pred rest false⟩
      · exact List.prefix_refl _

/-- A `removeFromAux` pass cannot create a double of any character other than
the newline. -/
theorem removeFromAux_noDouble (pred : List Char → Bool) (d : Char) (hd : d ≠ '\n') :
    ∀ (s : List Char) (mode : Bool), noDouble d s →
      noDouble d (removeFromAux pred mode s)
  | [], _, _ => by simp only [removeFromAux]; exact List.chain'_nil
  | c :: rest, true, h => by
    have htail : noDouble d rest := (List.chain'_cons'.mp h).2
    simp only [removeFromAux]
    split
    · next hc =>
      rw [noDouble, List.chain'_cons']
      refine ⟨?_, removeFromAux_noDouble pred d hd rest false htail⟩
      intro y _
      rintro ⟨h1, -⟩
      exact hd (h1 ▸ hc)
    · exact removeFromAux_noDouble pred d hd rest true htail
  | c :: rest, false, h => by
    have htail : noDouble d rest := (List.chain'_cons'.mp h).2
    have hhead := (List.chain'_cons'.mp h).1
    simp only [removeFromAux]
    split
    · exact removeFromAux_noDouble pred d hd rest true htail
    · rw [noDouble, List.chain'_cons']
      refine ⟨?_, removeFromAux_noDouble pred d hd rest false htail⟩
      intro y hy
      rcases removeFromAux_false_head pred rest with hh | hh | hh
      · rw [hh] at hy
        exact hhead y hy
      · rw [hh] at hy
        simp only [Option.mem_def, Option.some.injEq] at hy
        subst hy
        rintro ⟨-, h2⟩
        exact hd h2.symm
      · rw [hh] at hy
        simp at hy

/-- Characterisation of a match start: a non-newline head and a predicate
hit. -/
theorem fireAt_iff (pred : List Char → Bool) (s : List Char) :
    fireAt pred s = true ↔
      (∃ c, s.head? = some c ∧ c ≠ '\n') ∧ pred s = true := by
  match s with
  | [] => simp [fireAt]
  | c :: t => simp [fireAt, bne_iff_ne, and_comm]

/-- After a full pass of `removeFromAux pred`, no match of `pred` starts
anywhere: the pass deleted every match up to its end of line, and deleting a
suffix of a line cannot create a new match earlier in the line. -/
theorem removeFromAux_fireFree (pred : List Char → Bool) (hm : lineMono pred) :
    ∀ (s : List Char) (mode : Bool), fireFree pred (removeFromAux pred mode s)
  | [], _ => by simp only [removeFromAux]; exact fireFree_nil pred
  | c :: rest, true => by
    simp only [removeFromAux]
    split
    · next hc =>
      rw [fireFree_cons]
      refine ⟨?_, removeFromAux_fireFree pred hm rest false⟩
      subst hc
      simp [fireAt]
    · exact removeFromAux_fireFree pred hm rest true
  | c :: rest, false => by
    simp only [removeFromAux]
    split
    · exact removeFromAux_fireFree pred hm rest true
    · next hfire =>
      rw [fireFree_cons]
      refine ⟨?_, removeFromAux_fireFree pred hm rest false⟩
      by_contra hcon
      rw [Bool.not_eq_false] at hcon
      refine hfire (fireAt_mono pred hm _ _ ?_ hcon)
      rw [List.takeWhile_cons, List.takeWhile_cons]
      split
      · exact (List.cons_prefix_cons).mpr ⟨rfl, removeFromAux_takeWhile pred rest false⟩
      · exact List.prefix_refl _

/-- A pass of some other pattern preserves fire-freeness: it only shortens
lines. -/
theorem removeFromAux_fireFree_preserved (pred pred' : List Char → Bool)
    (hm : lineMono pred) :
    ∀ (s : List Char) (mode : Bool), fireFree pred s →
      fireFree pred (removeFromAux pred' mode s)
  | [], _, _ => by simp only [removeFromAux]; exact fireFree_nil pred
  | c :: rest, true, h => by
    have htail : fireFree pred rest := ((fireFree_cons pred c rest).mp h).2
    simp only [removeFromAux]
    split
    · next hc =>
      rw [fireFree_cons]
      refine ⟨?_, removeFromAux_fireFree_preserved pred pred' hm rest false htail⟩
      subst hc
      simp [fireAt]
    · exact removeFromAux_fireFree_preserved pred pred' hm rest true htail
  | c :: rest, false, h => by
    obtain ⟨h0, htail⟩ := (fireFree_cons pred c rest).mp h
    simp only [removeFromAux]
    split
    · exact removeFromAux_fireFree_preserved pred pred' hm rest true htail
    · rw [fireFree_cons]
      refine ⟨?_, removeFromAux_fireFree_preserved pred pred' hm rest false htail⟩
      by_contra hcon
      rw [Bool.not_eq_false] at hcon
      have h1 : fireAt pred (c :: rest) = true := by
        refine fireAt_mono pred hm _ _ ?_ hcon
        rw [List.takeWhile_cons, List.takeWhile_cons]
        split
        · exact (List.cons_prefix_cons).mpr ⟨rfl, removeFromAux_takeWhile pred' rest false⟩
        · exact List.prefix_refl _
      rw [h0] at h1
      exact absurd h1 (by simp)

/-- `removeFrom pred` is the identity on fire-free strings. -/
theorem removeFromAux_false_eq_self (pred : List Char → Bool) :
    ∀ s : List Char, fireFree pred s → removeFromAux pred false s = s
  | [], _ => rfl
  | c :: rest, h => by
    obtain ⟨h0, htail⟩ := (fireFree_cons pred c rest).mp h
    simp only [removeFromAux]
    rw [if_neg (by simp [h0]), removeFromAux_false_eq_self pred rest htail]

/-- Suffixes of fire-free strings are fire-free. -/
theorem fireFree_drop (pred : List Char → Bool) (s : List Char)
    (h : fireFree pred s) (k : Nat) : fireFree pred (s.drop k) := by
  intro n
  rw [List.drop_drop]
  exact h _

/-- Prefixes of fire-free strings are fire-free: a match inside a prefix would
extend to a match of the whole string, as the predicates are line-monotone. -/
theorem fireFree_of_pref (pred : List Char → Bool) (hm : lineMono pred)
    (t s : List Char) (ht : t <+: s) (h : fireFree pred s) : fireFree pred t := by
  intro n
  by_contra hcon
  rw [Bool.not_eq_false] at hcon
  have h1 := fireAt_mono pred hm _ _ (takeWhile_pref_mono _ _ _ (ht.drop n)) hcon
  rw [h n] at h1
  exact absurd h1 (by simp)

/-- `dropWhile` drops some prefix, so it is a `drop`. -/
theorem dropWhile_eq_drop (p : Char → Bool) : ∀ l : List Char,
    ∃ k, l.dropWhile p = l.drop k
  | [] => ⟨0, rfl⟩
  | c :: rest => by
    by_cases h : p c
    · obtain ⟨k, hk⟩ := dropWhile_eq_drop p rest
      exact ⟨k + 1, by simp [List.dropWhile_cons, h, hk]⟩
    · exact ⟨0, by simp [List.dropWhile_cons, h]⟩

/-- `strip s` is a prefix of the left-stripped string. -/
theorem strip_pref_dropWhile (s : List Char) : strip s <+: s.dropWhile isPyWS := by
  obtain ⟨w, hw⟩ := List.dropWhile_suffix (p := isPyWS) (l := (s.dropWhile isPyWS).reverse)
  refine ⟨w.reverse, ?_⟩
  rw [strip, ← List.reverse_append, hw, List.reverse_reverse]

/-- `strip s` is an infix of `s`. -/
theorem strip_infix_self (s : List Char) : strip s <:+: s :=
  (strip_pref_dropWhile s).isInfix.trans (List.dropWhile_suffix isPyWS).isInfix

/-- Stripping preserves fire-freeness. -/
theorem fireFree_strip (pred : List Char → Bool) (hm : lineMono pred)
    (s : List Char) (h : fireFree pred s) : fireFree pred (strip s) := by
  obtain ⟨k, hk⟩ := dropWhile_eq_drop isPyWS s
  have h1 : fireFree pred (s.dropWhile isPyWS) := by
    rw [hk]
    exact fireFree_drop pred s h k
  exact fireFree_of_pref pred hm _ _ (strip_pref_dropWhile s) h1

/-- Stripping preserves the no-double-character invariants. -/
theorem noDouble_strip (c : Char) (s : List Char) (h : noDouble c s) :
    noDouble c (strip s) :=
  List.Chain'.infix h (strip_infix_self s)

/-- A match starting in a newline-squeezed string gives a match in the
original: squeezing preserves the head and the first line. -/
theorem fireAt_squeezeNl (pred : List Char → Bool) (hm : lineMono pred)
    (u : List Char) (h : fireAt pred (squeeze '\n' u) = true) :
    fireAt pred u = true := by
  rw [fireAt_iff] at h ⊢
  obtain ⟨⟨c, hc, hcnl⟩, hp⟩ := h
  rw [squeeze_head?] at hc
  refine ⟨⟨c, hc, hcnl⟩, ?_⟩
  refine hm _ _ ?_ hp
  rw [squeeze_takeWhile_ne]

/-- Newline-squeezing preserves fire-freeness. -/
theorem fireFree_squeezeNl (pred : List Char → Bool) (hm : lineMono pred)
    (s : List Char) (h : fireFree pred s) : fireFree pred (squeeze '\n' s) := by
  intro n
  obtain ⟨m, hmk⟩ := squeeze_drop '\n' s n
  rw [hmk]
  by_contra hcon
  rw [Bool.not_eq_false] at hcon
  have h1 := fireAt_squeezeNl pred hm _ hcon
  rw [h m] at h1
  exact absurd h1 (by simp)

/-- `dropWhile` leaves a list whose head fails the predicate. -/
theorem dropWhile_head_false (p : Char → Bool) : ∀ l : List Char,
    ∀ x ∈ (l.dropWhile p).head?, p x = false
  | [] => by simp
  | c :: rest => by
    intro x hx
    rw [List.dropWhile_cons] at hx
    split at hx
    · exact dropWhile_head_false p rest x hx
    · next hpc =>
      simp only [List.head?_cons, Option.mem_def, Option.some.injEq] at hx
      subst hx
      simpa using hpc

/-- `dropWhile` is the identity when the head already fails the predicate. -/
theorem dropWhile_eq_self_of_head (p : Char → Bool) (l : List Char)
    (h : ∀ x ∈ l.head?, p x = false) : l.dropWhile p = l := by
  cases l with
  | nil => rfl
  | cons c rest => simp [List.dropWhile_cons, h c (by simp)]

/-- A non-empty prefix shares the head of the longer list. -/
theorem head?_of_pref (u v : List Char) (h : u <+: v) (x : Char)
    (hx : u.head? = some x) : v.head? = some x := by
  match u, hx with
  | c :: u', hx =>
    obtain ⟨t, rfl⟩ := h
    simpa using hx

/-- The head of a stripped string is not whitespace. -/
theorem strip_head (s : List Char) : ∀ x ∈ (strip s).head?, isPyWS x = false := by
  intro x hx
  exact dropWhile_head_false isPyWS s x
    (head?_of_pref _ _ (strip_pref_dropWhile s) x hx)

/-- The last character of a stripped string is not whitespace. -/
theorem strip_getLast (s : List Char) : ∀ x ∈ (strip s).getLast?, isPyWS x = false := by
  intro x hx
  rw [strip, List.getLast?_reverse] at hx
  exact dropWhile_head_false isPyWS _ x hx

/-- `strip` is the identity on strings with non-whitespace ends. -/
theorem strip_eq_self (s : List Char)
    (h1 : ∀ x ∈ s.head?, isPyWS x = false)
    (h2 : ∀ x ∈ s.getLast?, isPyWS x = false) : strip s = s := by
  rw [strip, dropWhile_eq_self_of_head isPyWS s h1,
    dropWhile_eq_self_of_head isPyWS s.reverse (by
      intro x hx
      rw [List.head?_reverse] at hx
      exact h2 x hx),
    List.reverse_reverse]

/-- Occurrence as a substring is the infix relation. -/
theorem occursIn_iff_infix (lit : List Char) : ∀ hay : List Char,
    occursIn lit hay = true ↔ lit <:+: hay
  | [] => by simp [occursIn, List.isEmpty_iff, List.infix_nil]
  | c :: rest => by
    simp only [occursIn, Bool.or_eq_true]
    rw [isPrefixOf_eq_pref, occursIn_iff_infix lit rest, List.infix_cons_iff]

/-- Case-insensitive prefix matches of newline-free literals live in the first
line. -/
theorem ciPref_takeWhile (lit : List Char) (hfree : ∀ c ∈ lit, c ≠ '\n') :
    ∀ s : List Char, ciPref lit s = true →
      ciPref lit (s.takeWhile (fun a => a != '\n')) = true := by
  induction lit with
  | nil => intro s _; simp [ciPref, List.isPrefixOf]
  | cons l ls ih =>
    intro s h
    match s with
    | [] => simp [ciPref, lower, List.isPrefixOf] at h
    | x :: xs =>
      simp only [ciPref, lower, List.map_cons, List.isPrefixOf, Bool.and_eq_true,
        beq_iff_eq] at h
      have hx : x ≠ '\n' := by
        intro hxeq
        subst hxeq
        have hl : l = '\n' := by
          have : Char.toLower '\n' = '\n' := by decide
          rw [this] at h
          exact h.1
        exact hfree l (by simp) hl
      rw [List.takeWhile_cons, if_pos (by simpa [bne_iff_ne] using hx)]
      simp only [ciPref, lower, List.map_cons, List.isPrefixOf, Bool.and_eq_true,
        beq_iff_eq]
      exact ⟨h.1, ih (fun c hc => hfree c (by simp [hc])) xs h.2⟩

/-- Case-insensitive prefix tests are line-monotone for newline-free
literals. -/
theorem ciPref_line_mono (lit : List Char) (hfree : ∀ c ∈ lit, c ≠ '\n')
    (s t : List Char)
    (hp : s.takeWhile (fun a => a != '\n') <+: t.takeWhile (fun a => a != '\n'))
    (h : ciPref lit s = true) : ciPref lit t = true := by
  have h1 := ciPref_takeWhile lit hfree s h
  rw [ciPref, lower, isPrefixOf_eq_pref] at h1 ⊢
  exact h1.trans ((hp.map Char.toLower).trans ((takeWhile_pref _ t).map Char.toLower))

/-- Patterns 1, 3, 4, 5 (pure literal triggers) are line-monotone. -/
theorem pred1_lineMono : lineMono pred1 := by
  intro s t hp h
  rw [pred1, List.any_eq_true] at h ⊢
  obtain ⟨lit, hlit, hc⟩ := h
  refine ⟨lit, hlit, ?_⟩
  have hall : ∀ l ∈ pat1Lits, ∀ c ∈ l, c ≠ '\n' := by decide
  exact ciPref_line_mono lit (hall lit hlit) s t hp hc

theorem pred3_lineMono : lineMono pred3 := by
  intro s t hp h
  exact ciPref_line_mono _ (by decide) s t hp h

theorem pred4_lineMono : lineMono pred4 := by
  intro s t hp h
  exact ciPref_line_mono _ (by decide) s t hp h

theorem pred5_lineMono : lineMono pred5 := by
  intro s t hp h
  exact ciPref_line_mono _ (by decide) s t hp h

/-- Case-insensitive occurrence is monotone under the prefix order. -/
theorem ciOccurs_pref_mono (lit u v : List Char) (h : u <+: v)
    (ho : ciOccurs lit u = true) : ciOccurs lit v = true := by
  rw [ciOccurs, occursIn_iff_infix] at ho ⊢
  exact ho.trans ((h.map Char.toLower).isInfix)

/-- Behind a newline-free literal prefix, restricting to the first line
commutes with dropping the literal. -/
theorem ciPref_drop_takeWhile (lit : List Char) (hfree : ∀ c ∈ lit, c ≠ '\n') :
    ∀ s : List Char, ciPref lit s = true →
      (s.drop lit.length).takeWhile (fun a => a != '\n') =
        (s.takeWhile (fun a => a != '\n')).drop lit.length := by
  induction lit with
  | nil => intro s _; simp
  | cons l ls ih =>
    intro s h
    match s with
    | [] => simp [ciPref, lower, List.isPrefixOf] at h
    | x :: xs =>
      simp only [ciPref, lower, List.map_cons, List.isPrefixOf, Bool.and_eq_true,
        beq_iff_eq] at h
      have hx : x ≠ '\n' := by
        intro hxeq
        subst hxeq
        have hl : l = '\n' := by
          have hnl : Char.toLower '\n' = '\n' := by decide
          rw [hnl] at h
          exact h.1
        exact hfree l (by simp) hl
      rw [List.length_cons, List.drop_succ_cons, List.takeWhile_cons,
        if_pos (by simpa [bne_iff_ne] using hx), List.drop_succ_cons]
      exact ih (fun c hc => hfree c (by simp [hc])) xs h.2

/-- Pattern 2 (`Share.*?(Facebook|Twitter|LinkedIn).*`) is line-monotone. -/
theorem pred2_lineMono : lineMono pred2 := by
  intro s t hp h
  rw [pred2, Bool.and_eq_true] at h ⊢
  obtain ⟨hshare, hsoc⟩ := h
  have hfree : ∀ c ∈ ("share".toList), c ≠ '\n' := by decide
  have hshare' : ciPref ("share".toList) t = true :=
    ciPref_line_mono _ hfree s t hp hshare
  refine ⟨hshare', ?_⟩
  rw [List.any_eq_true] at hsoc ⊢
  obtain ⟨lit, hlit, hocc⟩ := hsoc
  refine ⟨lit, hlit, ?_⟩
  have hs5 := ciPref_drop_takeWhile ("share".toList) hfree s hshare
  have ht5 := ciPref_drop_takeWhile ("share".toList) hfree t hshare'
  have hlen : ("share".toList).length = 5 := by decide
  rw [hlen] at hs5 ht5
  rw [hs5] at hocc
  rw [ht5]
  exact ciOccurs_pref_mono lit _ _ (hp.drop 5) hocc

/-- `removeFrom` is the identity on fire-free strings. -/
theorem removeFrom_eq_self (pred : List Char → Bool) (s : List Char)
    (h : fireFree pred s) : removeFrom pred s = s :=
  removeFromAux_false_eq_self pred s h

/-- The output of `clean_text` has single spaces, no boilerplate match at any
position, and non-whitespace ends.  Only consecutive newlines — blank lines
created when a boilerplate pattern deletes a whole line — can remain. -/
theorem clean_text_props (x : List Char) :
    noDouble ' ' (clean_text x) ∧
    fireFree pred1 (clean_text x) ∧
    fireFree pred2 (clean_text x) ∧
    fireFree pred3 (clean_text x) ∧
    fireFree pred4 (clean_text x) ∧
    fireFree pred5 (clean_text x) ∧
    (∀ c ∈ (clean_text x).head?, isPyWS c = false) ∧
    (∀ c ∈ (clean_text x).getLast?, isPyWS c = false) := by
  by_cases hx : x = []
  · subst hx
    exact ⟨List.chain'_nil, fireFree_nil _, fireFree_nil _, fireFree_nil _,
      fireFree_nil _, fireFree_nil _, by simp [clean_text], by simp [clean_text]⟩
  · rw [clean_text, if_neg hx]
    have hd : (' ' : Char) ≠ '\n' := by decide
    have nd0 : noDouble ' ' (squeeze ' ' (squeeze '\n' x)) := squeeze_noDouble ' ' _
    have nd1 := removeFromAux_noDouble pred1 ' ' hd _ false nd0
    have nd2 := removeFromAux_noDouble pred2 ' ' hd _ false nd1
    have nd3 := removeFromAux_noDouble pred3 ' ' hd _ false nd2
    have nd4 := removeFromAux_noDouble pred4 ' ' hd _ false nd3
    have nd5 := removeFromAux_noDouble pred5 ' ' hd _ false nd4
    have ff1a := removeFromAux_fireFree pred1 pred1_lineMono (squeeze ' ' (squeeze '\n' x)) false
    have ff1b := removeFromAux_fireFree_preserved pred1 pred2 pred1_lineMono _ false ff1a
    have ff1c := removeFromAux_fireFree_preserved pred1 pred3 pred1_lineMono _ false ff1b
    have ff1d := removeFromAux_fireFree_preserved pred1 pred4 pred1_lineMono _ false ff1c
    have ff1e := removeFromAux_fireFree_preserved pred1 pred5 pred1_lineMono _ false ff1d
    have ff2a := removeFromAux_fireFree pred2 pred2_lineMono
      (removeFromAux pred1 false (squeeze ' ' (squeeze '\n' x))) false
    have ff2b := removeFromAux_fireFree_preserved pred2 pred3 pred2_lineMono _ false ff2a
    have ff2c := removeFromAux_fireFree_preserved pred2 pred4 pred2_lineMono _ false ff2b
    have ff2d := removeFromAux_fireFree_preserved pred2 pred5 pred2_lineMono _ false ff2c
    have ff3a := removeFromAux_fireFree pred3 pred3_lineMono
      (removeFromAux pred2 false (removeFromAux pred1 false (squeeze ' ' (squeeze '\n' x)))) false
    have ff3b := removeFromAux_fireFree_preserved pred3 pred4 pred3_lineMono _ false ff3a
    have ff3c := removeFromAux_fireFree_preserved pred3 pred5 pred3_lineMono _ false ff3b
    have ff4a := removeFromAux_fireFree pred4 pred4_lineMono
      (removeFromAux pred3 false (removeFromAux pred2 false
        (removeFromAux pred1 false (squeeze ' ' (squeeze '\n' x))))) false
    have ff4b := removeFromAux_fireFree_preserved pred4 pred5 pred4_lineMono _ false ff4a
    have ff5a := removeFromAux_fireFree pred5 pred5_lineMono
      (removeFromAux pred4 false (removeFromAux pred3 false (removeFromAux pred2 false
        (removeFromAux pred1 false (squeeze ' ' (squeeze '\n' x)))))) false
    exact ⟨noDouble_strip ' ' _ nd5,
      fireFree_strip pred1 pred1_lineMono _ ff1e,
      fireFree_strip pred2 pred2_lineMono _ ff2d,
      fireFree_strip pred3 pred3_lineMono _ ff3c,
      fireFree_strip pred4 pred4_lineMono _ ff4b,
      fireFree_strip pred5 pred5_lineMono _ ff5a,
      strip_head _, strip_getLast _⟩

/-- On a string that is already cleaned — single spaces, no boilerplate match,
non-whitespace ends — `clean_text` only collapses newline runs. -/
theorem clean_text_eq_squeezeNl (y : List Char)
    (hnd : noDouble ' ' y)
    (hf1 : fireFree pred1 y) (hf2 : fireFree pred2 y) (hf3 : fireFree pred3 y)
    (hf4 : fireFree pred4 y) (hf5 : fireFree pred5 y)
    (hhead : ∀ c ∈ y.head?, isPyWS c = false)
    (hlast : ∀ c ∈ y.getLast?, isPyWS c = false) :
    clean_text y = squeeze '\n' y := by
  by_cases hy : y = []
  · subst hy
    rfl
  · rw [clean_text, if_neg hy]
    rw [squeeze_eq_self ' ' _ (squeeze_noDouble_preserved '\n' ' ' y hnd)]
    rw [removeFrom_eq_self pred1 _ (fireFree_squeezeNl pred1 pred1_lineMono y hf1)]
    rw [removeFrom_eq_self pred2 _ (fireFree_squeezeNl pred2 pred2_lineMono y hf2)]
    rw [removeFrom_eq_self pred3 _ (fireFree_squeezeNl pred3 pred3_lineMono y hf3)]
    rw [removeFrom_eq_self pred4 _ (fireFree_squeezeNl pred4 pred4_lineMono y hf4)]
    rw [removeFrom_eq_self pred5 _ (fireFree_squeezeNl pred5 pred5_lineMono y hf5)]
    refine strip_eq_self _ ?_ ?_
    · intro c hc
      rw [squeeze_head?] at hc
      exact hhead c hc
    · intro c hc
      have hne : y.getLast? ≠ some '\n' := by
        intro hcon
        have hws := hlast '\n' ((Option.mem_def).mpr hcon)
        exact absurd hws (by decide)
      rw [squeeze_getLast? '\n' y hne] at hc
      exact hlast c hc

/-- C3 counterexample: removing the boilerplate line "Advertisement" leaves a
blank line between "a" and "b"; a second application of `clean_text` collapses
that blank line, so `clean_text` is not idempotent on this input. -/
theorem C3_idempotence_counterexample :
    clean_text (clean_text ("a\nAdvertisement\nb".toList)) ≠
      clean_text ("a\nAdvertisement\nb".toList) := by
  decide

/-- C3 as amended: a second application of `clean_text` is exactly one more
newline-run collapse of the first — `clean_text (clean_text x)` equals
`clean_text x` with consecutive newlines squeezed.  In particular `clean_text`
is idempotent precisely on inputs whose cleaned form has no blank line, and
the only source of such blank lines is a boilerplate deletion emptying a whole
line, as in the counterexample. -/
theorem C3_clean_clean (x : List Char) :
    clean_text (clean_text x) = squeeze '\n' (clean_text x) := by
  obtain ⟨nd, f1, f2, f3, f4, f5, hh, hl⟩ := clean_text_props x
  exact clean_text_eq_squeezeNl _ nd f1 f2 f3 f4 f5 hh hl
